import Mathlib

/-!
# nlopt_wrapper.c : the context-switching bridge between a host and NLopt

A shallow embedding of `src/nlopt/nlopt_wrapper.c`.

* A `double` is an element of an arbitrary type `D` with a zero (what `calloc`
  leaves in a fresh block); the wrapper only copies doubles around.
* The NLopt library is not part of the file: its handle is an arbitrary type `O`
  and its entry points are the fields of `Nlopt O D`.
* `nlopt_optimize` calls back into `nlopt_wrapper_f`; its behaviour is a `Solver`,
  a tree whose nodes are the callbacks it makes and whose leaves are its returns.
* The two `ucontext_t` of the wrapper are a coroutine pair.  The worker context
  `nlopt_ctx` is the datum `ucontext`; the host context `julia_ctx` is the Lean
  caller itself.  A result `none` stands for undefined behaviour of the C code
  (a read through `NULL`, a copy past the end of a buffer, a switch into a
  context that cannot run).
* A buffer passed by pointer is passed by value and handed back.
-/

namespace NloptWrapper

/-- The enum `status`. -/
inductive status where
  | ST_IDLE
  | ST_RUNNING
  | ST_VALUE
  | ST_GRAD
  | ST_DONE
deriving DecidableEq, Repr

/-- The integer value of a `status`, as returned by the callback. -/
def status.toInt : status → Int
  | .ST_IDLE => 0
  | .ST_RUNNING => 1
  | .ST_VALUE => 2
  | .ST_GRAD => 3
  | .ST_DONE => 4

/-- The struct `function`.  Its back pointer `w` always designates the wrapper that owns
the entry, and its `next` pointer is the position in the list `wrapper.f_next`. -/
structure function where
  id : Int
deriving DecidableEq, Repr

/-- What `nlopt_wrapper_f` hands to the solver when it returns: its return value, the
content of the solver's gradient output (`none` when the solver passed `grad = NULL`), and
whether `nlopt_force_stop` was invoked on the handle during the call. -/
structure Answer (D : Type) where
  value : D
  grad : Option (List D)
  force_stopped : Bool
deriving DecidableEq, Repr

/-- The behaviour of one `nlopt_optimize` call: either it returns (`ret result x minf`,
with `x` the final content of the point buffer and `minf` the value stored through the
last argument), or it calls `nlopt_wrapper_f(n, x, grad, f_data)` and goes on according to
what the call hands back. What the solver writes into the point buffer or through the last
argument before it returns is recorded at the return only: the wrapper reads neither
before. -/
inductive Solver (D : Type) where
  | ret (result : Int) (x : List D) (minf : D) : Solver D
  | call (n : Nat) (x : List D) (grad : Option (List D)) (f_data : function)
      (k : Answer D → Solver D) : Solver D

/-- The part of the NLopt library the wrapper calls. `nlopt_create` answers `none` for a
`NULL` handle. -/
structure Nlopt (O D : Type) where
  nlopt_create : Int → Int → Option O
  nlopt_optimize : O → List D → Solver D
  nlopt_add_equality_constraint : O → function → D → O
  nlopt_add_inequality_constraint : O → function → D → O

/-- The saved worker context `nlopt_ctx`. -/
inductive ucontext (D : Type) where
  /-- all zero, as `calloc` left it -/
  | zeroed : ucontext D
  /-- armed by `makecontext`: the first switch calls `nlopt_wrapper_optimize_thread(w)` -/
  | entry : ucontext D
  /-- saved by the `swapcontext` inside `nlopt_wrapper_f(n, x, grad, f_data)`; `k` is the
  rest of the solver -/
  | in_f (n : Nat) (grad : Option (List D)) (k : Answer D → Solver D) : ucontext D
  /-- the entry function has returned and control went to `uc_link` -/
  | exited : ucontext D

/-- The struct `wrapper`. `f` is the objective entry and `f_next` the chain `w->f.next`. -/
structure wrapper (O D : Type) where
  f : function
  f_next : List function
  opt : O
  n : Int
  nlopt_ctx : ucontext D
  nlopt_stack : Option Nat
  final_f : D
  opt_x : Option (List D)
  eval_x : Option (List D)
  eval_grad : Option (List D)
  eval_f : D
  force_stop : Int
  result : Int
  function_id : Int
  status : status

/-- The macro `STACKSIZE`. -/
def STACKSIZE : Nat := 8 * 1024 * 1024

/-- The call `memcpy(dst, src, n * sizeof(double))` on two buffers of doubles: the new
content of `dst`. Undefined when either buffer has fewer than `n` entries. -/
def memcpy {D : Type} (dst src : List D) (n : Nat) : Option (List D) :=
  if n ≤ src.length ∧ n ≤ dst.length then some (src.take n ++ dst.drop n) else none

section Code

variable {O D : Type}

/-- The function entries registered on a session: the objective, then the chain. -/
def registered (w : wrapper O D) : List function := w.f :: w.f_next

/-- C function `nlopt_wrapper_create`. -/
def nlopt_wrapper_create [Zero D] (L : Nlopt O D) (type_id dimensions : Int) :
    Option (wrapper O D) :=
  match L.nlopt_create type_id dimensions with
  | none => none
  | some opt =>
    some
      { f := { id := 1 }
        f_next := []
        opt := opt
        n := dimensions
        nlopt_ctx := ucontext.zeroed
        nlopt_stack := none
        final_f := 0
        opt_x := none
        eval_x := none
        eval_grad := none
        eval_f := 0
        force_stop := 0
        result := 0
        function_id := 0
        status := status.ST_IDLE }

/-- C function `nlopt_wrapper_add_constraint`. -/
def nlopt_wrapper_add_constraint (L : Nlopt O D) (w : wrapper O D) (id : Int) (tolerance : D)
    (equality : Int) : wrapper O D :=
  let f : function := { id := id }
  { w with
    f_next := f :: w.f_next
    opt :=
      if equality ≠ 0 then L.nlopt_add_equality_constraint w.opt f tolerance
      else L.nlopt_add_inequality_constraint w.opt f tolerance }

/-- C function `nlopt_wrapper_f`, from its entry to its `swapcontext`: the switch saves the
worker in `nlopt_ctx` and resumes the host. -/
def nlopt_wrapper_f_suspend (w : wrapper O D) (n : Nat) (x : List D) (grad : Option (List D))
    (f : function) (k : Answer D → Solver D) : Option (wrapper O D) :=
  match w.eval_x with
  | none => none
  | some buf =>
    match memcpy buf x n with
    | none => none
    | some buf' =>
      some
        { w with
          function_id := f.id
          status := if grad.isSome then status.ST_GRAD else status.ST_VALUE
          eval_x := some buf'
          nlopt_ctx := ucontext.in_f n grad k }

/-- C function `nlopt_wrapper_f`, from the return of its `swapcontext` to its own return. -/
def nlopt_wrapper_f_resume (w : wrapper O D) (n : Nat) (grad : Option (List D)) :
    Option (Answer D) :=
  let force_stopped : Bool := decide (w.force_stop ≠ 0)
  match grad with
  | none => some { value := w.eval_f, grad := none, force_stopped := force_stopped }
  | some g =>
    match w.eval_grad with
    | none => none
    | some src =>
      match memcpy g src n with
      | none => none
      | some g' => some { value := w.eval_f, grad := some g', force_stopped := force_stopped }

/-- C function `nlopt_wrapper_optimize_thread`, after `nlopt_optimize` has returned; the
worker context ends and control goes to the host through `uc_link`. -/
def nlopt_wrapper_optimize_thread_return (w : wrapper O D) (result : Int) (x : List D)
    (minf : D) : wrapper O D :=
  { w with
    result := result
    opt_x := some x
    final_f := minf
    status := status.ST_DONE
    nlopt_ctx := ucontext.exited }

/-- C function `nlopt_wrapper_optimize_start`. Both `calloc` calls are taken to succeed; a
negative `n` makes the size of the copy wrap around, which is undefined. -/
def nlopt_wrapper_optimize_start [Zero D] (w : wrapper O D) (x : List D) :
    Option (wrapper O D) :=
  if w.n < 0 then none
  else
    match memcpy (List.replicate w.n.toNat (0 : D)) x w.n.toNat with
    | none => none
    | some buf =>
      some
        { w with
          nlopt_ctx := ucontext.entry
          nlopt_stack := some STACKSIZE
          opt_x := some buf }

/-- The switch `swapcontext(&w->julia_ctx, &w->nlopt_ctx)` seen from the worker: the solver
state that runs next, and what `nlopt_wrapper_f` handed to it (nothing when the worker is
entered at `nlopt_wrapper_optimize_thread`). -/
def resume_worker (L : Nlopt O D) (w : wrapper O D) : Option (Solver D × Option (Answer D)) :=
  match w.nlopt_stack with
  | none => none
  | some _ =>
    match w.nlopt_ctx with
    | ucontext.zeroed => none
    | ucontext.exited => none
    | ucontext.entry =>
      match w.opt_x with
      | none => none
      | some x => some (L.nlopt_optimize w.opt x, none)
    | ucontext.in_f n grad k =>
      match nlopt_wrapper_f_resume w n grad with
      | none => none
      | some a => some (k a, some a)

/-- The worker runs the solver up to the point where control returns to the host: the
next call of `nlopt_wrapper_f`, or the end of `nlopt_wrapper_optimize_thread`. -/
def run_solver (w : wrapper O D) : Solver D → Option (wrapper O D)
  | Solver.ret result x minf => some (nlopt_wrapper_optimize_thread_return w result x minf)
  | Solver.call n x grad f_data k => nlopt_wrapper_f_suspend w n x grad f_data k

/-- What one call of `nlopt_wrapper_optimize_callback` gives the host: the returned status,
the integer stored through `function_id`, the content of the point buffer `x` after the call.
`answer` records what the worker handed to the solver during the call. -/
structure Reply (D : Type) where
  status : status
  function_id : Int
  x : List D
  answer : Option (Answer D)
deriving DecidableEq, Repr

/-- C function `nlopt_wrapper_optimize_callback`. -/
def nlopt_wrapper_optimize_callback (L : Nlopt O D) (w : wrapper O D) (x : List D)
    (grad : Option (List D)) (f : D) (force_stop : Int) : Option (wrapper O D × Reply D) :=
  let w1 : wrapper O D :=
    { w with eval_f := f, eval_x := some x, eval_grad := grad, force_stop := force_stop }
  match resume_worker L w1 with
  | none => none
  | some (s, a) =>
    match run_solver w1 s with
    | none => none
    | some w2 =>
      match w2.eval_x with
      | none => none
      | some x' =>
        some (w2, { status := w2.status, function_id := w2.function_id, x := x', answer := a })

/-- C function `nlopt_wrapper_optimize_finalize`: the session afterwards, the content of
the output `x`, the double stored through `f`, the returned integer. With the point buffer
`NULL`, a copy of zero doubles copies nothing and the call goes on (`free(NULL)` does
nothing), while a copy of one double or more reads through `NULL` and is undefined; so is a
copy of a negative number of doubles, whose size wraps around. -/
def nlopt_wrapper_optimize_finalize (w : wrapper O D) (x : List D) :
    Option (wrapper O D × List D × D × Int) :=
  if w.n < 0 then none
  else
    match w.opt_x with
    | none =>
      if w.n = 0 then some ({ w with opt_x := none, nlopt_stack := none }, x, w.final_f, w.result)
      else none
    | some src =>
      match memcpy x src w.n.toNat with
      | none => none
      | some x' => some ({ w with opt_x := none, nlopt_stack := none }, x', w.final_f, w.result)

/-- The arguments of one call of `nlopt_wrapper_optimize_callback`. -/
structure Args (D : Type) where
  x : List D
  grad : Option (List D)
  f : D
  force_stop : Int
deriving DecidableEq, Repr

/-- The host loop: it calls `nlopt_wrapper_optimize_callback` with the arguments `host j` on
its call number `j` (counted from `0`) until the call returns `ST_DONE`; it gives the session
then and the replies in order. `fuel` bounds the number of calls. The sequence `host` is
arbitrary, so a host that chooses its arguments from the replies it has seen is covered: its
run is the run of the sequence of the arguments it chose. -/
def drive (L : Nlopt O D) (host : Nat → Args D) :
    Nat → Nat → wrapper O D → Option (wrapper O D × List (Reply D))
  | 0, _, _ => none
  | fuel + 1, j, w =>
    match nlopt_wrapper_optimize_callback L w (host j).x (host j).grad (host j).f
        (host j).force_stop with
    | none => none
    | some (w', r) =>
      if r.status = status.ST_DONE then some (w', [r])
      else
        match drive L host fuel (j + 1) w' with
        | none => none
        | some (w'', t) => some (w'', r :: t)

/-- A whole session on a wrapper: start, the host loop, finalize. It gives the replies of
the resume calls and the three results of finalize. -/
def run_session [Zero D] (L : Nlopt O D) (host : Nat → Args D) (fuel : Nat) (w : wrapper O D)
    (x0 xout : List D) : Option (List (Reply D) × List D × D × Int) :=
  match nlopt_wrapper_optimize_start w x0 with
  | none => none
  | some ws =>
    match drive L host fuel 0 ws with
    | none => none
    | some (w', tr) =>
      match nlopt_wrapper_optimize_finalize w' xout with
      | none => none
      | some (_, x, f, result) => some (tr, x, f, result)

end Code

section Reference

variable {D : Type}

/-- One evaluation request as the solver issues it: the arguments of its call of
`nlopt_wrapper_f`. -/
structure Request (D : Type) where
  n : Nat
  x : List D
  grad : Option (List D)
  f_data : function
deriving DecidableEq, Repr

/-- Reference, after sections 4.3 and 4.5 of the specification: the answer to a request
for `n` coordinates, built from the arguments `a` of a resume call. The value is the one
passed, the gradient output receives the `n` entries of the gradient buffer passed, and the
solver is signalled when the cancel flag is set. -/
def answer_of (n : Nat) (grad : Option (List D)) (a : Args D) : Option (Answer D) :=
  match grad with
  | none => some { value := a.f, grad := none, force_stopped := decide (a.force_stop ≠ 0) }
  | some g =>
    match a.grad with
    | none => none
    | some src =>
      match memcpy g src n with
      | none => none
      | some g' =>
        some { value := a.f, grad := some g', force_stopped := decide (a.force_stop ≠ 0) }

/-- Reference, after section 5 of the specification: the solver run as a plain sequential
program against the host. The request it issues while resume call `j` is in progress is
delivered into the point buffer of that call and is answered from the arguments of call
`j + 1`. It gives the requests in the order issued, then what the solver returned: status
code, final point, final value. -/
def Solver.direct : Solver D → (Nat → Args D) → Nat →
    Option (List (Request D) × Int × List D × D)
  | Solver.ret result x minf, _, _ => some ([], result, x, minf)
  | Solver.call n x grad f_data k, host, j =>
    match memcpy (host j).x x n with
    | none => none
    | some _ =>
      match answer_of n grad (host (j + 1)) with
      | none => none
      | some a =>
        match Solver.direct (k a) host (j + 1) with
        | none => none
        | some (reqs, res) =>
          some ({ n := n, x := x, grad := grad, f_data := f_data } :: reqs, res)

/-- Every path of the solver issues at most `b` requests and then returns a status code
that satisfies `P`. -/
def Solver.stops_within (P : Int → Prop) : Solver D → Nat → Prop
  | Solver.ret result _ _, _ => P result
  | Solver.call _ _ _ _ _, 0 => False
  | Solver.call _ _ _ _ k, b + 1 => ∀ a, Solver.stops_within P (k a) b

/-- Every callback the solver makes, on every path, passes an entry of `reg`. -/
def Solver.calls_only (reg : List function) : Solver D → Prop
  | Solver.ret _ _ _ => True
  | Solver.call _ _ _ f_data k => f_data ∈ reg ∧ ∀ a, Solver.calls_only reg (k a)

end Reference

/-! ## A small instance, for the closed statements -/

namespace Demo

/-- A library instance over integer doubles: every handle is accepted and is the list of
the constraint entries added; the solver asks the objective for value and gradient at the
initial point, then returns the point it was given with the value it received. When it is
signalled it returns `-5` (a forced stop), otherwise `1` (success). -/
def lib : Nlopt (List function) Int where
  nlopt_create := fun _ _ => some []
  nlopt_optimize := fun _ x =>
    Solver.call x.length x (some (List.replicate x.length 0)) { id := 1 } fun a =>
      Solver.ret (if a.force_stopped then -5 else 1) x a.value
  nlopt_add_equality_constraint := fun o f _ => f :: o
  nlopt_add_inequality_constraint := fun o f _ => f :: o

/-- A library instance whose solver returns at once, without any request. -/
def lib0 : Nlopt Unit Int where
  nlopt_create := fun _ _ => some ()
  nlopt_optimize := fun _ x => Solver.ret 1 x 0
  nlopt_add_equality_constraint := fun o _ _ => o
  nlopt_add_inequality_constraint := fun o _ _ => o

/-- A host that passes a one-entry point buffer and a one-entry gradient buffer on every
call, the value `10 + j` on call `j`, and never cancels. -/
def host : Nat → Args Int := fun j =>
  { x := [0], grad := some [7], f := 10 + (j : Int), force_stop := 0 }

/-- The host `host`, except that the very first call carries the cancel flag. -/
def host_cancel_first : Nat → Args Int := fun j =>
  { x := [0], grad := some [7], f := 10 + (j : Int), force_stop := if j = 0 then 1 else 0 }

/-- The host `host`, except that every call but the first carries the cancel flag. -/
def host_cancel_later : Nat → Args Int := fun j =>
  { x := [0], grad := some [7], f := 10 + (j : Int), force_stop := if j = 0 then 0 else 1 }

/-- A one-dimensional session on `lib`, as `nlopt_wrapper_create` leaves it. -/
def w0 : wrapper (List function) Int :=
  { f := { id := 1 }, f_next := [], opt := [], n := 1, nlopt_ctx := ucontext.zeroed,
    nlopt_stack := none, final_f := 0, opt_x := none, eval_x := none, eval_grad := none,
    eval_f := 0, force_stop := 0, result := 0, function_id := 0, status := status.ST_IDLE }

/-- The session `w0` after `nlopt_wrapper_optimize_start` from the point `[5]`. -/
def ws : wrapper (List function) Int :=
  { w0 with nlopt_ctx := ucontext.entry, nlopt_stack := some STACKSIZE, opt_x := some [5] }

/-- The session `ws` after the first resume call of `host`: the worker is suspended in the
solver's request. -/
def suspended : wrapper (List function) Int :=
  { ws with
    eval_f := 10, eval_x := some [5], eval_grad := some [7], force_stop := 0,
    function_id := 1, status := status.ST_GRAD,
    nlopt_ctx := ucontext.in_f 1 (some [0]) fun a =>
      Solver.ret (if a.force_stopped then -5 else 1) [5] a.value }

/-- The session `suspended` after the second resume call of `host`: the solver has
returned. -/
def finished : wrapper (List function) Int :=
  { suspended with
    eval_f := 11, eval_x := some [0], result := 1, opt_x := some [5], final_f := 11,
    status := status.ST_DONE, nlopt_ctx := ucontext.exited }

/-- The session `finished` after `nlopt_wrapper_optimize_finalize`. -/
def finalized : wrapper (List function) Int :=
  { finished with opt_x := none, nlopt_stack := none }

/-- A session of dimension `0` on `lib0`, driven to `ST_DONE` by one resume call with an
empty point buffer: the solver returned at once. -/
def finished0 : wrapper Unit Int :=
  { f := { id := 1 }, f_next := [], opt := (), n := 0, nlopt_ctx := ucontext.exited,
    nlopt_stack := some STACKSIZE, final_f := 0, opt_x := some [], eval_x := some [],
    eval_grad := none, eval_f := 0, force_stop := 0, result := 1, function_id := 0,
    status := status.ST_DONE }

/-- A one-dimensional session on `lib0`, as `nlopt_wrapper_create` leaves it. -/
def wz : wrapper Unit Int :=
  { f := { id := 1 }, f_next := [], opt := (), n := 1, nlopt_ctx := ucontext.zeroed,
    nlopt_stack := none, final_f := 0, opt_x := none, eval_x := none, eval_grad := none,
    eval_f := 0, force_stop := 0, result := 0, function_id := 0, status := status.ST_IDLE }

/-- The session `wz` after `nlopt_wrapper_optimize_start` from the point `[5]`. -/
def wzs : wrapper Unit Int :=
  { wz with nlopt_ctx := ucontext.entry, nlopt_stack := some STACKSIZE, opt_x := some [5] }

end Demo

end NloptWrapper

/-! ## The bridge refines the reference run -/

namespace NloptWrapper

section Bridge

variable {O D : Type}

/-- The session as `nlopt_wrapper_optimize_callback` leaves it just before it switches to
the worker: the four channel fields hold the arguments. -/
def channel (w : wrapper O D) (a : Args D) : wrapper O D :=
  { w with eval_f := a.f, eval_x := some a.x, eval_grad := a.grad, force_stop := a.force_stop }

/-- The rest of the host loop once the worker, entered by call `j`, runs the solver state
`s` (`a0` is what the worker handed to the solver on the way). -/
def continue_run (L : Nlopt O D) (host : Nat → Args D) (fuel j : Nat) (w1 : wrapper O D)
    (s : Solver D) (a0 : Option (Answer D)) : Option (wrapper O D × List (Reply D)) :=
  match run_solver w1 s with
  | none => none
  | some w2 =>
    match w2.eval_x with
    | none => none
    | some x' =>
      if w2.status = status.ST_DONE then
        some (w2, [{ status := w2.status, function_id := w2.function_id, x := x', answer := a0 }])
      else
        match drive L host fuel (j + 1) w2 with
        | none => none
        | some (w'', t) =>
          some (w'', { status := w2.status, function_id := w2.function_id, x := x',
                       answer := a0 } :: t)

/-- What the host loop, entered at call `j` with the solver about to run, has in common
with the reference run that issued `reqs` and returned `res`. -/
structure Bridged (host : Nat → Args D) (j : Nat) (a0 : Option (Answer D))
    (reqs : List (Request D)) (res : Int × List D × D) (w1 w' : wrapper O D)
    (tr : List (Reply D)) : Prop where
  length : tr.length = reqs.length + 1
  first : ∃ r, tr[0]? = some r ∧ r.answer = a0
  request : ∀ i q, reqs[i]? = some q → ∃ r, tr[i]? = some r ∧
    r.status = (if q.grad.isSome then status.ST_GRAD else status.ST_VALUE) ∧
    r.function_id = q.f_data.id ∧ r.x = q.x.take q.n ++ (host (j + i)).x.drop q.n
  answer : ∀ i q, reqs[i]? = some q → ∃ r a, tr[i + 1]? = some r ∧ r.answer = some a ∧
    answer_of q.n q.grad (host (j + i + 1)) = some a
  last : ∃ r, tr[reqs.length]? = some r ∧ r.status = status.ST_DONE
  awaiting : tr.countP
    (fun r => decide (r.status = status.ST_VALUE ∨ r.status = status.ST_GRAD)) = reqs.length
  finished : tr.countP (fun r => decide (r.status = status.ST_DONE)) = 1
  done : w'.status = status.ST_DONE
  result : w'.result = res.1
  opt_x : w'.opt_x = some res.2.1
  final_f : w'.final_f = res.2.2
  n_eq : w'.n = w1.n

/-- The solver behind the saved worker context calls back only with entries of `reg`. -/
def worker_calls_only (L : Nlopt O D) (reg : List function) (w : wrapper O D) : Prop :=
  match w.nlopt_ctx with
  | ucontext.entry => ∀ x, w.opt_x = some x → (L.nlopt_optimize w.opt x).calls_only reg
  | ucontext.in_f _ _ k => ∀ a, (k a).calls_only reg
  | _ => True

theorem callback_eq (L : Nlopt O D) (w : wrapper O D) (a : Args D) :
    nlopt_wrapper_optimize_callback L w a.x a.grad a.f a.force_stop =
      match resume_worker L (channel w a) with
      | none => none
      | some (s, a0) =>
        match run_solver (channel w a) s with
        | none => none
        | some w2 =>
          match w2.eval_x with
          | none => none
          | some x' =>
            some (w2, { status := w2.status, function_id := w2.function_id, x := x',
                        answer := a0 }) := rfl

theorem drive_succ (L : Nlopt O D) (host : Nat → Args D) (fuel j : Nat) (w : wrapper O D) :
    drive L host (fuel + 1) j w =
      match resume_worker L (channel w (host j)) with
      | none => none
      | some (s, a0) => continue_run L host fuel j (channel w (host j)) s a0 := by
  rw [drive, callback_eq]
  cases h : resume_worker L (channel w (host j)) with
  | none => rfl
  | some p =>
    obtain ⟨s, a0⟩ := p
    simp only [continue_run]
    cases h2 : run_solver (channel w (host j)) s with
    | none => rfl
    | some w2 =>
      cases h3 : w2.eval_x with
      | none => simp [h3]
      | some x' => simp [h3]

theorem f_resume_channel (w : wrapper O D) (a : Args D) (n : Nat) (grad : Option (List D)) :
    nlopt_wrapper_f_resume (channel w a) n grad = answer_of n grad a := by
  cases grad <;> rfl

theorem continue_run_bridged (L : Nlopt O D) (s : Solver D) :
    ∀ (host : Nat → Args D) (j : Nat) (w1 : wrapper O D) (a0 : Option (Answer D)) (fuel : Nat)
      (reqs : List (Request D)) (res : Int × List D × D),
      w1.eval_x = some (host j).x → w1.nlopt_stack.isSome = true →
      s.direct host j = some (reqs, res) → reqs.length ≤ fuel →
      ∃ w' tr, continue_run L host fuel j w1 s a0 = some (w', tr) ∧
        Bridged host j a0 reqs res w1 w' tr := by
  induction s with
  | ret result x minf =>
    intro host j w1 a0 fuel reqs res hx hst hd hfuel
    simp only [Solver.direct, Option.some.injEq, Prod.mk.injEq] at hd
    obtain ⟨rfl, rfl⟩ := hd
    refine ⟨nlopt_wrapper_optimize_thread_return w1 result x minf,
      [{ status := status.ST_DONE, function_id := w1.function_id, x := (host j).x,
         answer := a0 }], ?_, ?_⟩
    · simp [continue_run, run_solver, nlopt_wrapper_optimize_thread_return, hx]
    · constructor <;> simp [nlopt_wrapper_optimize_thread_return]
  | call n x grad f_data k ih =>
    intro host j w1 a0 fuel reqs res hx hst hd hfuel
    simp only [Solver.direct] at hd
    cases hm : memcpy (host j).x x n with
    | none => simp [hm] at hd
    | some buf =>
      cases ha : answer_of n grad (host (j + 1)) with
      | none => simp [hm, ha] at hd
      | some a =>
        cases hk : (k a).direct host (j + 1) with
        | none => simp [hm, ha, hk] at hd
        | some p =>
          obtain ⟨reqs', res'⟩ := p
          simp only [hm, ha, hk, Option.some.injEq, Prod.mk.injEq] at hd
          obtain ⟨rfl, rfl⟩ := hd
          obtain ⟨fuel', rfl⟩ : ∃ f', fuel = f' + 1 :=
            ⟨fuel - 1, by simp only [List.length_cons] at hfuel; omega⟩
          have hbuf : buf = x.take n ++ (host j).x.drop n := by
            unfold memcpy at hm
            split at hm
            · exact (Option.some.inj hm).symm
            · exact absurd hm (by simp)
          let w2 : wrapper O D :=
            { w1 with
              function_id := f_data.id
              status := if grad.isSome then status.ST_GRAD else status.ST_VALUE
              eval_x := some buf
              nlopt_ctx := ucontext.in_f n grad k }
          have hw2 : run_solver w1 (Solver.call n x grad f_data k) = some w2 := by
            simp [run_solver, nlopt_wrapper_f_suspend, hx, hm, w2]
          have hns : w2.status ≠ status.ST_DONE := by
            simp only [w2]
            split <;> simp
          have hrw : resume_worker L (channel w2 (host (j + 1))) = some (k a, some a) := by
            obtain ⟨sz, hsz⟩ := Option.isSome_iff_exists.mp hst
            have h1 : (channel w2 (host (j + 1))).nlopt_stack = some sz := hsz
            have h2 : (channel w2 (host (j + 1))).nlopt_ctx = ucontext.in_f n grad k := rfl
            simp only [resume_worker, h1, h2, f_resume_channel, ha]
          obtain ⟨w', tr', hrun, hB⟩ :=
            ih a host (j + 1) (channel w2 (host (j + 1))) (some a) fuel' reqs' res' rfl hst hk
              (by simp only [List.length_cons] at hfuel; omega)
          refine ⟨w', { status := w2.status, function_id := w2.function_id, x := buf,
                        answer := a0 } :: tr', ?_, ?_⟩
          · simp only [continue_run, hw2]
            have h3 : w2.eval_x = some buf := rfl
            simp only [h3, hns, if_false, drive_succ, hrw, hrun]
          · refine ⟨?_, ⟨_, List.getElem?_cons_zero, rfl⟩, ?_, ?_, ?_, ?_, ?_, hB.done, hB.result, hB.opt_x, hB.final_f,
              hB.n_eq.trans rfl⟩
            · simp [hB.length]
            · intro i q hq
              cases i with
              | zero =>
                simp only [List.getElem?_cons_zero, Option.some.injEq] at hq
                subst hq
                exact ⟨_, List.getElem?_cons_zero, rfl, rfl, by simpa using hbuf⟩
              | succ i =>
                simp only [List.getElem?_cons_succ] at hq
                obtain ⟨r, hr, h1, h2, h3⟩ := hB.request i q hq
                refine ⟨r, by simpa using hr, h1, h2, ?_⟩
                rw [h3, show j + 1 + i = j + (i + 1) by omega]
            · intro i q hq
              cases i with
              | zero =>
                simp only [List.getElem?_cons_zero, Option.some.injEq] at hq
                subst hq
                obtain ⟨r, hr, hra⟩ := hB.first
                exact ⟨r, a, by simpa using hr, hra, ha⟩
              | succ i =>
                simp only [List.getElem?_cons_succ] at hq
                obtain ⟨r, a', hr, h1, h2⟩ := hB.answer i q hq
                refine ⟨r, a', by simpa using hr, h1, ?_⟩
                rw [← h2, show j + 1 + i + 1 = j + (i + 1) + 1 by omega]
            · obtain ⟨r, hr, h1⟩ := hB.last
              exact ⟨r, by simpa using hr, h1⟩
            · rw [List.countP_cons, hB.awaiting]
              simp only [w2]
              cases grad <;> simp
            · rw [List.countP_cons, hB.finished]
              simp only [w2]
              cases grad <;> simp

theorem start_eq [Zero D] (w ws : wrapper O D) (x0 : List D)
    (h : nlopt_wrapper_optimize_start w x0 = some ws) :
    0 ≤ w.n ∧ w.n.toNat ≤ x0.length ∧
      ws = { w with nlopt_ctx := ucontext.entry, nlopt_stack := some STACKSIZE,
                    opt_x := some (x0.take w.n.toNat) } := by
  unfold nlopt_wrapper_optimize_start memcpy at h
  by_cases hn : w.n < 0
  · simp [hn] at h
  · by_cases hl : w.n.toNat ≤ x0.length
    · simp [hn, hl] at h
      exact ⟨by omega, hl, h.symm⟩
    · simp [hn, hl] at h

theorem drive_entry (L : Nlopt O D) (host : Nat → Args D) (fuel j : Nat) (w : wrapper O D)
    (sz : Nat) (x : List D) (hctx : w.nlopt_ctx = ucontext.entry)
    (hst : w.nlopt_stack = some sz) (hx : w.opt_x = some x) :
    drive L host (fuel + 1) j w =
      continue_run L host fuel j (channel w (host j)) (L.nlopt_optimize w.opt x) none := by
  have h1 : (channel w (host j)).nlopt_stack = some sz := hst
  have h2 : (channel w (host j)).nlopt_ctx = ucontext.entry := hctx
  have h3 : (channel w (host j)).opt_x = some x := hx
  have h4 : (channel w (host j)).opt = w.opt := rfl
  rw [drive_succ]
  simp only [resume_worker, h1, h2, h3, h4]

theorem drive_in_f (L : Nlopt O D) (host : Nat → Args D) (fuel j : Nat) (w : wrapper O D)
    (sz n : Nat) (grad : Option (List D)) (k : Answer D → Solver D) (a : Answer D)
    (hctx : w.nlopt_ctx = ucontext.in_f n grad k) (hst : w.nlopt_stack = some sz)
    (ha : answer_of n grad (host j) = some a) :
    drive L host (fuel + 1) j w =
      continue_run L host fuel j (channel w (host j)) (k a) (some a) := by
  have h1 : (channel w (host j)).nlopt_stack = some sz := hst
  have h2 : (channel w (host j)).nlopt_ctx = ucontext.in_f n grad k := hctx
  rw [drive_succ]
  simp only [resume_worker, h1, h2, f_resume_channel, ha]

/-- A started session driven by the host loop: the loop returns, and its replies and the
final session are those of the reference run from the copy of the initial point. -/
theorem session_bridged [Zero D] (L : Nlopt O D) (w ws : wrapper O D) (x0 : List D)
    (host : Nat → Args D) (reqs : List (Request D)) (res : Int × List D × D) (fuel : Nat)
    (hstart : nlopt_wrapper_optimize_start w x0 = some ws)
    (hrun : (L.nlopt_optimize ws.opt (x0.take w.n.toNat)).direct host 0 = some (reqs, res))
    (hfuel : reqs.length + 1 ≤ fuel) :
    ∃ w' tr, drive L host fuel 0 ws = some (w', tr) ∧
      Bridged host 0 none reqs res (channel ws (host 0)) w' tr := by
  obtain ⟨_, _, hws⟩ := start_eq w ws x0 hstart
  obtain ⟨fuel', rfl⟩ : ∃ f', fuel = f' + 1 := ⟨fuel - 1, by omega⟩
  have hctx : ws.nlopt_ctx = ucontext.entry := by rw [hws]
  have hst : ws.nlopt_stack = some STACKSIZE := by rw [hws]
  have hx : ws.opt_x = some (x0.take w.n.toNat) := by rw [hws]
  rw [drive_entry L host fuel' 0 ws STACKSIZE _ hctx hst hx]
  exact continue_run_bridged L _ host 0 (channel ws (host 0)) none fuel' reqs res rfl
    (by show ws.nlopt_stack.isSome = true; rw [hst]; rfl) hrun (by omega)

theorem run_solver_some (w w2 : wrapper O D) (s : Solver D)
    (h : run_solver w s = some w2) :
    (∃ result x minf, s = Solver.ret result x minf ∧
        w2 = nlopt_wrapper_optimize_thread_return w result x minf) ∨
    (∃ n x grad f_data k buf buf', s = Solver.call n x grad f_data k ∧
        w.eval_x = some buf ∧ memcpy buf x n = some buf' ∧
        w2 = { w with
                function_id := f_data.id
                status := if grad.isSome then status.ST_GRAD else status.ST_VALUE
                eval_x := some buf'
                nlopt_ctx := ucontext.in_f n grad k }) := by
  cases s with
  | ret result x minf =>
    simp only [run_solver, Option.some.injEq] at h
    exact Or.inl ⟨result, x, minf, rfl, h.symm⟩
  | call n x grad f_data k =>
    right
    simp only [run_solver, nlopt_wrapper_f_suspend] at h
    cases hb : w.eval_x with
    | none => simp [hb] at h
    | some buf =>
      cases hm : memcpy buf x n with
      | none => simp [hb, hm] at h
      | some buf' =>
        simp only [hb, hm, Option.some.injEq] at h
        exact ⟨n, x, grad, f_data, k, buf, buf', rfl, rfl, hm, h.symm⟩

theorem callback_some (L : Nlopt O D) (w w' : wrapper O D) (x : List D)
    (g : Option (List D)) (f : D) (fs : Int) (r : Reply D)
    (h : nlopt_wrapper_optimize_callback L w x g f fs = some (w', r)) :
    ∃ s, resume_worker L
        { w with eval_f := f, eval_x := some x, eval_grad := g, force_stop := fs } =
        some (s, r.answer) ∧
      run_solver { w with eval_f := f, eval_x := some x, eval_grad := g, force_stop := fs } s
        = some w' ∧
      r.status = w'.status ∧ r.function_id = w'.function_id ∧ w'.eval_x = some r.x := by
  simp only [nlopt_wrapper_optimize_callback] at h
  split at h
  · exact absurd h (by simp)
  · rename_i s a hs
    split at h
    · exact absurd h (by simp)
    · rename_i w3 hw3
      split at h
      · exact absurd h (by simp)
      · rename_i x' hx'
        simp only [Option.some.injEq, Prod.mk.injEq] at h
        obtain ⟨rfl, rfl⟩ := h
        exact ⟨s, hs, hw3, rfl, rfl, hx'⟩

theorem answer_of_some (n : Nat) (grad : Option (List D)) (a : Args D) (ans : Answer D)
    (h : answer_of n grad a = some ans) :
    ans.value = a.f ∧ ans.force_stopped = decide (a.force_stop ≠ 0) ∧
      (grad = none → ans.grad = none) ∧
      (∀ g, grad = some g → ∃ src, a.grad = some src ∧ n ≤ src.length ∧ n ≤ g.length ∧
        ans.grad = some (src.take n ++ g.drop n)) := by
  cases grad with
  | none =>
    simp only [answer_of, Option.some.injEq] at h
    subst h
    simp
  | some g =>
    simp only [answer_of] at h
    cases hs : a.grad with
    | none => simp [hs] at h
    | some src =>
      simp only [hs, memcpy] at h
      by_cases hl : n ≤ src.length ∧ n ≤ g.length
      · simp only [hl, and_self, if_true, Option.some.injEq] at h
        subst h
        simp [hl.1, hl.2]
      · simp [hl] at h

theorem drive_congr (L : Nlopt O D) (h1 h2 : Nat → Args D) :
    ∀ (fuel j : Nat) (w : wrapper O D), (∀ i, j ≤ i → h1 i = h2 i) →
      drive L h1 fuel j w = drive L h2 fuel j w := by
  intro fuel
  induction fuel with
  | zero => intro j w _; rfl
  | succ fuel ih =>
    intro j w h
    simp only [drive, h j (Nat.le_refl j)]
    cases nlopt_wrapper_optimize_callback L w (h2 j).x (h2 j).grad (h2 j).f
        (h2 j).force_stop with
    | none => rfl
    | some p =>
      obtain ⟨w', r⟩ := p
      simp only [ih (j + 1) w' (fun i hi => h i (by omega))]

theorem continue_run_congr (L : Nlopt O D) (h1 h2 : Nat → Args D) (fuel j : Nat)
    (w : wrapper O D) (s : Solver D) (a0 : Option (Answer D))
    (h : ∀ i, j + 1 ≤ i → h1 i = h2 i) :
    continue_run L h1 fuel j w s a0 = continue_run L h2 fuel j w s a0 := by
  simp only [continue_run]
  cases run_solver w s with
  | none => rfl
  | some w2 => simp only [drive_congr L h1 h2 fuel (j + 1) w2 h]

/-- The arguments of the first resume call after start matter only through the point
buffer: two hosts that agree on it and on every later call give the same session run. -/
theorem first_call_irrelevant [Zero D] (L : Nlopt O D) (w : wrapper O D) (x0 xout : List D)
    (h1 h2 : Nat → Args D) (fuel : Nat)
    (hx : (h1 0).x = (h2 0).x) (hrest : ∀ j, 0 < j → h1 j = h2 j) :
    run_session L h1 fuel w x0 xout = run_session L h2 fuel w x0 xout := by
  unfold run_session
  cases hs : nlopt_wrapper_optimize_start w x0 with
  | none => rfl
  | some ws =>
    obtain ⟨_, _, hws⟩ := start_eq w ws x0 hs
    have hctx : ws.nlopt_ctx = ucontext.entry := by rw [hws]
    have hst : ws.nlopt_stack = some STACKSIZE := by rw [hws]
    have hox : ws.opt_x = some (x0.take w.n.toNat) := by rw [hws]
    cases fuel with
    | zero => rfl
    | succ fuel =>
      simp only [drive_entry L _ fuel 0 ws STACKSIZE _ hctx hst hox]
      generalize L.nlopt_optimize ws.opt (x0.take w.n.toNat) = s
      cases s with
      | ret result x minf =>
        simp only [continue_run, run_solver, nlopt_wrapper_optimize_thread_return, channel,
          nlopt_wrapper_optimize_finalize, hx, if_true]
        by_cases hn : ws.n < 0
        · simp [hn]
        · simp only [hn, if_false]
          cases memcpy xout x ws.n.toNat <;> rfl
      | call n x grad f_data k =>
        simp only [continue_run, run_solver, nlopt_wrapper_f_suspend, channel, hx]
        cases hm : memcpy (h2 0).x x n with
        | none => rfl
        | some buf =>
          have hns : (if grad.isSome = true then status.ST_GRAD else status.ST_VALUE)
              ≠ status.ST_DONE := by split <;> simp
          simp only [hns, if_false]
          cases fuel with
          | zero => rfl
          | succ fuel =>
            simp only [drive_succ, channel, hrest 1 Nat.one_pos]
            cases hr : resume_worker L
                { ws with
                  function_id := f_data.id
                  status := if grad.isSome = true then status.ST_GRAD else status.ST_VALUE
                  nlopt_ctx := ucontext.in_f n grad k
                  eval_f := (h2 1).f, eval_x := some (h2 1).x, eval_grad := (h2 1).grad
                  force_stop := (h2 1).force_stop } with
            | none => simp [hr]
            | some p =>
              obtain ⟨s', a'⟩ := p
              simp only [hr]
              rw [continue_run_congr L h1 h2 fuel 1 _ s' a' (fun i hi => hrest i (by omega))]

theorem stops_within_direct (P : Int → Prop) (s : Solver D) :
    ∀ (b : Nat) (host : Nat → Args D) (j : Nat) (reqs : List (Request D))
      (res : Int × List D × D),
      s.stops_within P b → s.direct host j = some (reqs, res) →
      reqs.length ≤ b ∧ P res.1 := by
  induction s with
  | ret result x minf =>
    intro b host j reqs res hs hd
    simp only [Solver.direct, Option.some.injEq, Prod.mk.injEq] at hd
    obtain ⟨rfl, rfl⟩ := hd
    cases b <;> exact ⟨by simp, hs⟩
  | call n x grad f_data k ih =>
    intro b host j reqs res hs hd
    cases b with
    | zero => exact absurd hs (by simp [Solver.stops_within])
    | succ b =>
      simp only [Solver.direct] at hd
      cases hm : memcpy (host j).x x n with
      | none => simp [hm] at hd
      | some buf =>
        cases ha : answer_of n grad (host (j + 1)) with
        | none => simp [hm, ha] at hd
        | some a =>
          cases hk : (k a).direct host (j + 1) with
          | none => simp [hm, ha, hk] at hd
          | some p =>
            obtain ⟨reqs', res'⟩ := p
            simp only [hm, ha, hk, Option.some.injEq, Prod.mk.injEq] at hd
            obtain ⟨rfl, rfl⟩ := hd
            obtain ⟨h1, h2⟩ := ih a b host (j + 1) reqs' res' (hs a) hk
            exact ⟨by simp only [List.length_cons]; omega, h2⟩

theorem drive_function_id (L : Nlopt O D) (host : Nat → Args D) (reg : List function) :
    ∀ (fuel j : Nat) (w w' : wrapper O D) (tr : List (Reply D)),
      worker_calls_only L reg w → drive L host fuel j w = some (w', tr) →
      ∀ r ∈ tr, r.status ≠ status.ST_DONE → ∃ f ∈ reg, r.function_id = f.id := by
  intro fuel
  induction fuel with
  | zero => intro j w w' tr _ h; simp [drive] at h
  | succ fuel ih =>
    intro j w w' tr hinv h
    simp only [drive] at h
    cases hc : nlopt_wrapper_optimize_callback L w (host j).x (host j).grad (host j).f
        (host j).force_stop with
    | none => simp [hc] at h
    | some p =>
      obtain ⟨w1, r1⟩ := p
      simp only [hc] at h
      obtain ⟨s, hrw, hrun, hst, hfid, _⟩ := callback_some L w w1 _ _ _ _ r1 hc
      have hs : s.calls_only reg := by
        unfold resume_worker at hrw
        unfold worker_calls_only at hinv
        split at hrw
        · exact absurd hrw (by simp)
        · split at hrw
          · exact absurd hrw (by simp)
          · exact absurd hrw (by simp)
          · rename_i hctx
            have hctx' : w.nlopt_ctx = ucontext.entry := hctx
            split at hrw
            · exact absurd hrw (by simp)
            · rename_i x hx
              simp only [Option.some.injEq, Prod.mk.injEq] at hrw
              rw [hctx'] at hinv
              rw [← hrw.1]
              exact hinv x hx
          · rename_i n grad k hctx
            have hctx' : w.nlopt_ctx = ucontext.in_f n grad k := hctx
            split at hrw
            · exact absurd hrw (by simp)
            · rename_i a _
              simp only [Option.some.injEq, Prod.mk.injEq] at hrw
              rw [hctx'] at hinv
              rw [← hrw.1]
              exact hinv a
      by_cases hdone : r1.status = status.ST_DONE
      · simp only [hdone, if_true, Option.some.injEq, Prod.mk.injEq] at h
        obtain ⟨_, rfl⟩ := h
        intro r hr hne
        simp only [List.mem_singleton] at hr
        subst hr
        exact absurd hdone hne
      · simp only [hdone, if_false] at h
        rcases run_solver_some _ _ _ hrun with
          ⟨_, _, _, _, rfl⟩ | ⟨n, x, grad, f_data, k, buf, buf', rfl, _, _, rfl⟩
        · exact absurd hst hdone
        · cases hd : drive L host fuel (j + 1)
              { w with
                eval_f := (host j).f, eval_grad := (host j).grad
                force_stop := (host j).force_stop
                function_id := f_data.id
                status := if grad.isSome then status.ST_GRAD else status.ST_VALUE
                eval_x := some buf'
                nlopt_ctx := ucontext.in_f n grad k } with
          | none => simp [hd] at h
          | some q =>
            obtain ⟨w2, t⟩ := q
            simp only [hd, Option.some.injEq, Prod.mk.injEq] at h
            obtain ⟨_, rfl⟩ := h
            intro r hr hne
            rcases List.mem_cons.mp hr with rfl | hr
            · exact ⟨f_data, hs.1, hfid⟩
            · refine ih (j + 1) _ w2 t ?_ hd r hr hne
              exact fun a => hs.2 a

end Bridge

/-! ## The claims -/

section Claims

variable {O D : Type}

/-- C1: a started session whose solver issues `reqs.length` evaluation requests and then
returns (each request being answered by the next resume call) is driven to the end by the
host loop: exactly `reqs.length` resume calls return `ST_VALUE` or `ST_GRAD`, exactly one
returns `ST_DONE`, and that one is call number `reqs.length + 1`, the last. -/
theorem resume_count [Zero D] (L : Nlopt O D) (w ws : wrapper O D) (x0 : List D)
    (host : Nat → Args D) (reqs : List (Request D)) (res : Int × List D × D) (fuel : Nat)
    (hstart : nlopt_wrapper_optimize_start w x0 = some ws)
    (hrun : (L.nlopt_optimize ws.opt (x0.take w.n.toNat)).direct host 0 = some (reqs, res))
    (hfuel : reqs.length + 1 ≤ fuel) :
    ∃ w' tr, drive L host fuel 0 ws = some (w', tr) ∧
      tr.countP (fun r => decide (r.status = status.ST_VALUE ∨ r.status = status.ST_GRAD))
        = reqs.length ∧
      tr.countP (fun r => decide (r.status = status.ST_DONE)) = 1 ∧
      tr.length = reqs.length + 1 ∧
      (∃ r, tr[reqs.length]? = some r ∧ r.status = status.ST_DONE) := by
  obtain ⟨w', tr, hd, hB⟩ := session_bridged L w ws x0 host reqs res fuel hstart hrun hfuel
  exact ⟨w', tr, hd, hB.awaiting, hB.finished, hB.length, hB.last⟩

/-- Witness of C1: the one-dimensional session of `Demo`, whose solver issues one request. -/
theorem resume_count_witness :
    nlopt_wrapper_optimize_start Demo.w0 [5] = some Demo.ws ∧
    ∃ w' tr, drive Demo.lib Demo.host 2 0 Demo.ws = some (w', tr) ∧
      tr.countP (fun r => decide (r.status = status.ST_VALUE ∨ r.status = status.ST_GRAD))
        = 1 ∧
      tr.countP (fun r => decide (r.status = status.ST_DONE)) = 1 ∧
      tr.length = 1 + 1 ∧
      (∃ r, tr[1]? = some r ∧ r.status = status.ST_DONE) :=
  ⟨rfl, resume_count Demo.lib Demo.w0 Demo.ws [5] Demo.host
    [{ n := 1, x := [5], grad := some [0], f_data := { id := 1 } }] (1, [5], 11) 2
    rfl rfl (by decide)⟩

/-- C2: when the solver, resumed by a call of `nlopt_wrapper_optimize_callback`, issues a
request through `nlopt_wrapper_f(n, xs, grad, f_data)` with `xs` of length `n`, that call
returns `ST_GRAD` exactly when `grad` is present and `ST_VALUE` exactly when it is absent,
stores the id of `f_data` through `function_id`, and leaves the `n` coordinates of `xs` at
the front of the point buffer it was passed. No call ever returns `ST_IDLE` or
`ST_RUNNING`. -/
theorem request_reported (L : Nlopt O D) (w : wrapper O D) (x : List D)
    (g : Option (List D)) (f : D) (fs : Int) (n : Nat) (xs : List D)
    (grad : Option (List D)) (f_data : function) (k : Answer D → Solver D)
    (a0 : Option (Answer D))
    (hreq : resume_worker L
        { w with eval_f := f, eval_x := some x, eval_grad := g, force_stop := fs } =
      some (Solver.call n xs grad f_data k, a0))
    (hxs : xs.length = n) (hbuf : n ≤ x.length) :
    (∃ w' r, nlopt_wrapper_optimize_callback L w x g f fs = some (w', r) ∧
      (r.status = status.ST_GRAD ↔ grad.isSome = true) ∧
      (r.status = status.ST_VALUE ↔ grad = none) ∧
      r.function_id = f_data.id ∧ r.x.take n = xs ∧ r.x.drop n = x.drop n) ∧
    (∀ (w2 : wrapper O D) (x2 : List D) (g2 : Option (List D)) (f2 : D) (fs2 : Int)
      (w' : wrapper O D) (r : Reply D),
      nlopt_wrapper_optimize_callback L w2 x2 g2 f2 fs2 = some (w', r) →
      r.status ≠ status.ST_IDLE ∧ r.status ≠ status.ST_RUNNING) := by
  constructor
  · have hm : memcpy x xs n = some (xs.take n ++ x.drop n) := by
      simp [memcpy, hxs, hbuf]
    refine ⟨{ w with
              eval_f := f, eval_grad := g, force_stop := fs
              function_id := f_data.id
              status := if grad.isSome then status.ST_GRAD else status.ST_VALUE
              eval_x := some (xs.take n ++ x.drop n)
              nlopt_ctx := ucontext.in_f n grad k },
      { status := if grad.isSome then status.ST_GRAD else status.ST_VALUE,
        function_id := f_data.id, x := xs.take n ++ x.drop n, answer := a0 }, ?_, ?_⟩
    · simp only [nlopt_wrapper_optimize_callback, hreq, run_solver, nlopt_wrapper_f_suspend,
        hm]
    · subst hxs
      cases grad <;> simp
  · intro w2 x2 g2 f2 fs2 w' r h
    obtain ⟨s, _, hrun, hst, _, _⟩ := callback_some L w2 w' x2 g2 f2 fs2 r h
    rcases run_solver_some _ _ _ hrun with ⟨_, _, _, _, rfl⟩ | ⟨_, _, grad', _, _, _, _, _, _, _, rfl⟩
    · rw [hst]
      simp [nlopt_wrapper_optimize_thread_return]
    · rw [hst]
      cases grad' <;> simp

/-- Witness of C2: the first resume call of the `Demo` session, in which the solver asks
the objective for value and gradient at `[5]`. -/
theorem request_reported_witness :
    ∃ w' r, nlopt_wrapper_optimize_callback Demo.lib Demo.ws [0] (some [7]) 10 0
        = some (w', r) ∧
      (r.status = status.ST_GRAD ↔ (some [(0 : Int)]).isSome = true) ∧
      (r.status = status.ST_VALUE ↔ some [(0 : Int)] = none) ∧
      r.function_id = 1 ∧ r.x.take 1 = [5] ∧ r.x.drop 1 = [] :=
  (request_reported Demo.lib Demo.ws [0] (some [7]) 10 0 1 [5] (some [0]) { id := 1 }
    (fun a => Solver.ret (if a.force_stopped then -5 else 1) [5] a.value) none
    rfl rfl (by decide)).1

/-- C3: in a run of a started session, the solver's request number `i + 1` (`reqs[i]`) is
the one reported by resume call number `i + 1` (reply `tr[i]`, arguments `host i`), and
what the solver receives for it is handed over during resume call number `i + 2`: the value
is the value passed to that call and, when the request asked for a gradient, the gradient
output receives the `n` entries of the gradient buffer passed to that call. -/
theorem requests_answers_paired [Zero D] (L : Nlopt O D) (w ws : wrapper O D) (x0 : List D)
    (host : Nat → Args D) (reqs : List (Request D)) (res : Int × List D × D) (fuel : Nat)
    (hstart : nlopt_wrapper_optimize_start w x0 = some ws)
    (hrun : (L.nlopt_optimize ws.opt (x0.take w.n.toNat)).direct host 0 = some (reqs, res))
    (hfuel : reqs.length + 1 ≤ fuel) :
    ∃ w' tr, drive L host fuel 0 ws = some (w', tr) ∧
      ∀ i q, reqs[i]? = some q →
        (∃ r, tr[i]? = some r ∧
          r.status = (if q.grad.isSome then status.ST_GRAD else status.ST_VALUE) ∧
          r.function_id = q.f_data.id ∧ r.x = q.x.take q.n ++ (host i).x.drop q.n) ∧
        (∃ r a, tr[i + 1]? = some r ∧ r.answer = some a ∧ a.value = (host (i + 1)).f ∧
          (q.grad = none → a.grad = none) ∧
          (∀ g, q.grad = some g → ∃ src, (host (i + 1)).grad = some src ∧
            q.n ≤ src.length ∧ a.grad = some (src.take q.n ++ g.drop q.n))) := by
  obtain ⟨w', tr, hd, hB⟩ := session_bridged L w ws x0 host reqs res fuel hstart hrun hfuel
  refine ⟨w', tr, hd, fun i q hq => ⟨?_, ?_⟩⟩
  · obtain ⟨r, hr, h1, h2, h3⟩ := hB.request i q hq
    exact ⟨r, hr, h1, h2, by simpa using h3⟩
  · obtain ⟨r, a, hr, h1, h2⟩ := hB.answer i q hq
    rw [Nat.zero_add] at h2
    obtain ⟨hv, _, hn, hg⟩ := answer_of_some _ _ _ _ h2
    refine ⟨r, a, hr, h1, hv, hn, fun g hgq => ?_⟩
    obtain ⟨src, hs, hl, _, ha⟩ := hg g hgq
    exact ⟨src, hs, hl, ha⟩

/-- Witness of C3: the `Demo` session; its one request is reported by the first resume
call and answered with the value `11` and the gradient `[7]` of the second. -/
theorem requests_answers_paired_witness :
    ∃ w' tr, drive Demo.lib Demo.host 2 0 Demo.ws = some (w', tr) ∧
      ∀ i q, [({ n := 1, x := [5], grad := some [0], f_data := { id := 1 } } :
          Request Int)][i]? = some q →
        (∃ r, tr[i]? = some r ∧
          r.status = (if q.grad.isSome then status.ST_GRAD else status.ST_VALUE) ∧
          r.function_id = q.f_data.id ∧ r.x = q.x.take q.n ++ (Demo.host i).x.drop q.n) ∧
        (∃ r a, tr[i + 1]? = some r ∧ r.answer = some a ∧
          a.value = (Demo.host (i + 1)).f ∧
          (q.grad = none → a.grad = none) ∧
          (∀ g, q.grad = some g → ∃ src, (Demo.host (i + 1)).grad = some src ∧
            q.n ≤ src.length ∧ a.grad = some (src.take q.n ++ g.drop q.n))) :=
  requests_answers_paired Demo.lib Demo.w0 Demo.ws [5] Demo.host
    [{ n := 1, x := [5], grad := some [0], f_data := { id := 1 } }] (1, [5], 11) 2
    rfl rfl (by decide)

/-- C4, counterexample: the `Demo` session is driven to `ST_DONE` and then holds the final
point `[5]`; `nlopt_wrapper_optimize_finalize` copies it out and clears the stored point, so
one of the three stored results is altered by finalize. -/
theorem finalize_clears_final_point :
    drive Demo.lib Demo.host 2 0 Demo.ws = some (Demo.finished,
      [{ status := status.ST_GRAD, function_id := 1, x := [5], answer := none },
       { status := status.ST_DONE, function_id := 1, x := [0],
         answer := some { value := 11, grad := some [7], force_stopped := false } }]) ∧
    Demo.finished.status = status.ST_DONE ∧
    Demo.finished.opt_x = some [5] ∧
    (nlopt_wrapper_optimize_finalize Demo.finished [0]).map
        (fun p => (p.2, p.1.opt_x, p.1.final_f, p.1.result)) =
      some (([5], 11, 1), none, 11, 1) := by
  refine ⟨rfl, rfl, rfl, rfl⟩

/-- C4, amended: for a session started from `x0` and driven until resume returned
`ST_DONE`, the solver having run from the copy of `x0` and returned the status `result`,
the point `xf` and the value `minf`: these are stored in the session when the status
becomes `ST_DONE`, and `nlopt_wrapper_optimize_finalize` writes the `n` coordinates of `xf`
to its point output, `minf` to its value output, and returns `result`. It leaves the stored
value and status code as they are, and it releases the stored point after the copy: the
point buffer field is cleared. -/
theorem finalize_returns_solver_result [Zero D] (L : Nlopt O D) (w ws : wrapper O D)
    (x0 : List D) (host : Nat → Args D) (reqs : List (Request D)) (result : Int)
    (xf : List D) (minf : D) (fuel : Nat) (xout : List D)
    (hstart : nlopt_wrapper_optimize_start w x0 = some ws)
    (hrun : (L.nlopt_optimize ws.opt (x0.take w.n.toNat)).direct host 0 =
      some (reqs, result, xf, minf))
    (hfuel : reqs.length + 1 ≤ fuel)
    (hxf : w.n.toNat ≤ xf.length) (hxout : w.n.toNat ≤ xout.length) :
    ∃ w' tr, drive L host fuel 0 ws = some (w', tr) ∧
      w'.status = status.ST_DONE ∧
      w'.opt_x = some xf ∧ w'.final_f = minf ∧ w'.result = result ∧
      ∃ w'', nlopt_wrapper_optimize_finalize w' xout =
          some (w'', xf.take w.n.toNat ++ xout.drop w.n.toNat, minf, result) ∧
        w''.final_f = minf ∧ w''.result = result ∧ w''.status = status.ST_DONE ∧
        w''.opt_x = none := by
  obtain ⟨w', tr, hd, hB⟩ :=
    session_bridged L w ws x0 host reqs (result, xf, minf) fuel hstart hrun hfuel
  obtain ⟨hn0, _, hws⟩ := start_eq w ws x0 hstart
  have hn : w'.n = w.n := by rw [hB.n_eq, hws]; rfl
  have hox : w'.opt_x = some xf := hB.opt_x
  have hff : w'.final_f = minf := hB.final_f
  have hres : w'.result = result := hB.result
  refine ⟨w', tr, hd, hB.done, hox, hff, hres,
    { w' with opt_x := none, nlopt_stack := none }, ?_, hff, hres, hB.done, rfl⟩
  have hneg : ¬ w.n < 0 := by omega
  simp [nlopt_wrapper_optimize_finalize, hn, hox, hff, hres, memcpy, hxf, hxout, hneg]

/-- Witness of C4, amended: the `Demo` session started from `[5]`; its solver returns the point
`[5]`, the value `11` it received and the status `1`. -/
theorem finalize_returns_solver_result_witness :
    ∃ w' tr, drive Demo.lib Demo.host 2 0 Demo.ws = some (w', tr) ∧
      w'.status = status.ST_DONE ∧
      w'.opt_x = some [5] ∧ w'.final_f = 11 ∧ w'.result = 1 ∧
      ∃ w'', nlopt_wrapper_optimize_finalize w' [0] =
          some (w'', List.take Demo.w0.n.toNat [5] ++ List.drop Demo.w0.n.toNat [0], 11, 1) ∧
        w''.final_f = 11 ∧ w''.result = 1 ∧ w''.status = status.ST_DONE ∧
        w''.opt_x = none :=
  finalize_returns_solver_result Demo.lib Demo.w0 Demo.ws [5] Demo.host
    [{ n := 1, x := [5], grad := some [0], f_data := { id := 1 } }] 1 [5] 11 2 [0]
    rfl rfl (by decide) (by decide) (by decide)

/-- C5, counterexample: on a session whose solver returns without any request the one
resume call returns `ST_DONE` with `function_id = 0`, which is the id of no registered
function (the registry holds the objective, id `1`, alone); and a constraint registered
with id `1` is entered in the registry, so it carries the objective's id. -/
theorem function_id_unregistered_counterexample :
    nlopt_wrapper_create Demo.lib0 0 1 = some Demo.wz ∧
    nlopt_wrapper_optimize_start Demo.wz [5] = some Demo.wzs ∧
    (nlopt_wrapper_optimize_callback Demo.lib0 Demo.wzs [0] none 0 0).map
        (fun p => (p.2, (registered p.1).map function.id)) =
      some ({ status := status.ST_DONE, function_id := 0, x := [0], answer := none }, [1]) ∧
    (0 : Int) ∉ [(1 : Int)] ∧
    (nlopt_wrapper_add_constraint Demo.lib0 Demo.wz 1 0 0).f_next = [{ id := 1 }] := by
  refine ⟨rfl, rfl, rfl, by decide, rfl⟩

/-- C5, amended: in a run of a started session whose solver calls back only with entries
registered on the session, every resume call that returns `ST_VALUE` or `ST_GRAD` returns
the id of a registered function. A resume call that returns `ST_DONE` returns the
`function_id` the session held before the call. The objective made by
`nlopt_wrapper_create` has id `1`, it stays the head of the registry through every
registration, and a registered constraint carries the id the host supplied. -/
theorem awaiting_function_id_registered [Zero D] (L : Nlopt O D) (w ws w' : wrapper O D)
    (x0 : List D) (host : Nat → Args D) (fuel : Nat) (tr : List (Reply D))
    (hstart : nlopt_wrapper_optimize_start w x0 = some ws)
    (hsolver : (L.nlopt_optimize ws.opt (x0.take w.n.toNat)).calls_only (registered ws))
    (hdrive : drive L host fuel 0 ws = some (w', tr)) :
    (∀ r ∈ tr, r.status ≠ status.ST_DONE → ∃ f ∈ registered ws, r.function_id = f.id) ∧
    (∀ (wa wb : wrapper O D) (x : List D) (g : Option (List D)) (f : D) (fs : Int)
      (r : Reply D), nlopt_wrapper_optimize_callback L wa x g f fs = some (wb, r) →
      r.status = status.ST_DONE → r.function_id = wa.function_id) ∧
    (∀ (t d : Int) (wc : wrapper O D), nlopt_wrapper_create L t d = some wc →
      wc.f.id = 1 ∧ registered wc = [{ id := 1 }]) ∧
    (∀ (wd : wrapper O D) (id : Int) (tol : D) (eq : Int),
      registered (nlopt_wrapper_add_constraint L wd id tol eq) =
        wd.f :: { id := id } :: wd.f_next) := by
  refine ⟨?_, ?_, ?_, ?_⟩
  · obtain ⟨_, _, hws⟩ := start_eq w ws x0 hstart
    refine drive_function_id L host (registered ws) fuel 0 ws w' tr ?_ hdrive
    have hctx : ws.nlopt_ctx = ucontext.entry := by rw [hws]
    have hox : ws.opt_x = some (x0.take w.n.toNat) := by rw [hws]
    unfold worker_calls_only
    rw [hctx]
    intro x hx
    rw [hox] at hx
    rw [← Option.some.inj hx]
    exact hsolver
  · intro wa wb x g f fs r h hdone
    obtain ⟨s, _, hrun, hst, hfid, _⟩ := callback_some L wa wb x g f fs r h
    rcases run_solver_some _ _ _ hrun with
      ⟨_, _, _, _, rfl⟩ | ⟨_, _, grad, _, _, _, _, _, _, _, rfl⟩
    · rw [hfid]
      rfl
    · rw [hst] at hdone
      cases grad <;> simp at hdone
  · intro t d wc h
    unfold nlopt_wrapper_create at h
    cases ho : L.nlopt_create t d with
    | none => simp [ho] at h
    | some o =>
      simp only [ho, Option.some.injEq] at h
      subst h
      exact ⟨rfl, rfl⟩
  · intro wd id tol eq
    rfl

/-- Witness of C5, amended: the `Demo` session; its solver calls back with the objective
entry only. -/
theorem awaiting_function_id_registered_witness :
    drive Demo.lib Demo.host 2 0 Demo.ws = some (Demo.finished,
      [{ status := status.ST_GRAD, function_id := 1, x := [5], answer := none },
       { status := status.ST_DONE, function_id := 1, x := [0],
         answer := some { value := 11, grad := some [7], force_stopped := false } }]) ∧
    ∀ r ∈ [({ status := status.ST_GRAD, function_id := 1, x := [5], answer := none } :
              Reply Int),
            { status := status.ST_DONE, function_id := 1, x := [0],
              answer := some { value := 11, grad := some [7], force_stopped := false } }],
      r.status ≠ status.ST_DONE → ∃ f ∈ registered Demo.ws, r.function_id = f.id :=
  ⟨rfl, (awaiting_function_id_registered Demo.lib Demo.w0 Demo.ws Demo.finished [5]
    Demo.host 2 _ rfl ⟨List.mem_cons_self _ _, fun _ => trivial⟩ rfl).1⟩

/-- C6: two runs of a session that differ only in the value and the gradient buffer passed
to the first resume call after start are indistinguishable: every resume call returns the
same status and `function_id` (and point buffer), the solver is handed the same answer for
every request, and finalize gives the same point, value and status. -/
theorem first_answer_ignored [Zero D] (L : Nlopt O D) (w : wrapper O D) (x0 xout : List D)
    (h1 h2 : Nat → Args D) (fuel : Nat)
    (hx : (h1 0).x = (h2 0).x) (hfs : (h1 0).force_stop = (h2 0).force_stop)
    (hrest : ∀ j, 0 < j → h1 j = h2 j) :
    run_session L h1 fuel w x0 xout = run_session L h2 fuel w x0 xout :=
  have _ := hfs
  first_call_irrelevant L w x0 xout h1 h2 fuel hx hrest

/-- Witness of C6: the `Demo` session under `host` and under the host that differs from it
by the value `99` and the gradient `[42]` on the first call; both runs end alike. -/
theorem first_answer_ignored_witness :
    run_session Demo.lib Demo.host 2 Demo.w0 [5] [0] =
      run_session Demo.lib
        (fun j => if j = 0 then { x := [0], grad := some [42], f := 99, force_stop := 0 }
          else Demo.host j) 2 Demo.w0 [5] [0] ∧
    run_session Demo.lib Demo.host 2 Demo.w0 [5] [0] =
      some ([{ status := status.ST_GRAD, function_id := 1, x := [5], answer := none },
             { status := status.ST_DONE, function_id := 1, x := [0],
               answer := some { value := 11, grad := some [7], force_stopped := false } }],
            [5], 11, 1) :=
  ⟨first_answer_ignored Demo.lib Demo.w0 [5] [0] Demo.host
    (fun j => if j = 0 then { x := [0], grad := some [42], f := 99, force_stop := 0 }
      else Demo.host j) 2 rfl rfl
    (fun j hj => by
      have hne : j ≠ 0 := Nat.pos_iff_ne_zero.mp hj
      simp [hne]), rfl⟩

/-- C7, counterexample: the `Demo` solver stops with status `-5` once it is signalled (the
run under `host_cancel_later` shows it) and returns `1`, success, otherwise. Under
`host_cancel_first` the first resume call after start carries the cancel flag and the
second does not: the worker hands the solver an answer with no signal, and the run ends
with status `1`. -/
theorem cancel_on_first_resume_lost :
    (Demo.host_cancel_first 0).force_stop = 1 ∧
    run_session Demo.lib Demo.host_cancel_first 2 Demo.w0 [5] [0] =
      some ([{ status := status.ST_GRAD, function_id := 1, x := [5], answer := none },
             { status := status.ST_DONE, function_id := 1, x := [0],
               answer := some { value := 11, grad := some [7], force_stopped := false } }],
            [5], 11, 1) ∧
    run_session Demo.lib Demo.host_cancel_later 2 Demo.w0 [5] [0] =
      some ([{ status := status.ST_GRAD, function_id := 1, x := [5], answer := none },
             { status := status.ST_DONE, function_id := 1, x := [0],
               answer := some { value := 11, grad := some [7], force_stopped := true } }],
            [5], 11, -5) := by
  refine ⟨rfl, rfl, rfl⟩

/-- C7, amended: when a resume call that carries the cancel flag resumes a worker suspended
in an evaluation request (any resume call but the first after start), the worker invokes
`nlopt_force_stop` before `nlopt_wrapper_f` returns to the solver, whatever the later calls
carry. So if the solver, once signalled, issues at most `b` further requests and returns a
status satisfying `P` (one that is not normal convergence), the host loop reaches `ST_DONE`
within `b + 1` resume calls, this one included, and the stored terminal status satisfies
`P`. -/
theorem cancel_observed_when_suspended (L : Nlopt O D) (w : wrapper O D)
    (host : Nat → Args D) (j sz n : Nat) (grad : Option (List D))
    (k : Answer D → Solver D) (a : Answer D) (P : Int → Prop) (b : Nat)
    (reqs : List (Request D)) (res : Int × List D × D) (fuel : Nat)
    (hctx : w.nlopt_ctx = ucontext.in_f n grad k) (hst : w.nlopt_stack = some sz)
    (hcancel : (host j).force_stop ≠ 0)
    (ha : answer_of n grad (host j) = some a)
    (hsolver : ∀ a' : Answer D, a'.force_stopped = true → (k a').stops_within P b)
    (hrun : (k a).direct host j = some (reqs, res))
    (hfuel : reqs.length + 1 ≤ fuel) :
    a.force_stopped = true ∧
    ∃ w' tr, drive L host fuel j w = some (w', tr) ∧
      (∃ r, tr[0]? = some r ∧ r.answer = some a) ∧
      tr.length ≤ b + 1 ∧
      (∃ r, tr[tr.length - 1]? = some r ∧ r.status = status.ST_DONE) ∧
      w'.status = status.ST_DONE ∧ P w'.result := by
  have hstop : a.force_stopped = true := by
    rw [(answer_of_some n grad (host j) a ha).2.1]
    simpa using hcancel
  obtain ⟨hlen, hP⟩ := stops_within_direct P (k a) b host j reqs res (hsolver a hstop) hrun
  obtain ⟨fuel', rfl⟩ : ∃ f', fuel = f' + 1 := ⟨fuel - 1, by omega⟩
  obtain ⟨w', tr, hd, hB⟩ :=
    continue_run_bridged L (k a) host j (channel w (host j)) (some a) fuel' reqs res rfl
      (by show w.nlopt_stack.isSome = true; rw [hst]; rfl) hrun (by omega)
  refine ⟨hstop, w', tr, ?_, hB.first, ?_, ?_, hB.done, ?_⟩
  · rw [drive_in_f L host fuel' j w sz n grad k a hctx hst ha, hd]
  · rw [hB.length]
    omega
  · rw [hB.length]
    exact hB.last
  · rw [hB.result]
    exact hP

/-- Witness of C7, amended: the suspended `Demo` session resumed by a call that carries the
cancel flag: the solver is signalled and the run ends at once with status `-5`. -/
theorem cancel_observed_when_suspended_witness :
    (Demo.host_cancel_later 1).force_stop ≠ 0 ∧
    ∃ w' tr, drive Demo.lib Demo.host_cancel_later 1 1 Demo.suspended = some (w', tr) ∧
      (∃ r, tr[0]? = some r ∧
        r.answer = some { value := 11, grad := some [7], force_stopped := true }) ∧
      tr.length ≤ 0 + 1 ∧
      (∃ r, tr[tr.length - 1]? = some r ∧ r.status = status.ST_DONE) ∧
      w'.status = status.ST_DONE ∧ w'.result ≠ 1 :=
  ⟨by decide,
   (cancel_observed_when_suspended Demo.lib Demo.suspended Demo.host_cancel_later 1
    STACKSIZE 1 (some [0])
    (fun a => Solver.ret (if a.force_stopped then -5 else 1) [5] a.value)
    { value := 11, grad := some [7], force_stopped := true } (fun r => r ≠ 1) 0
    [] (-5, [5], 11) 1 rfl rfl (by decide) rfl
    (fun a' h => by
      show (if a'.force_stopped = true then (-5 : Int) else 1) ≠ 1
      rw [if_pos h]
      decide)
    rfl (by decide)).2⟩

/-- C8, counterexample: the started session `Demo.ws` has status `ST_IDLE`, not `ST_DONE`,
yet `nlopt_wrapper_optimize_finalize` on it returns normally, with the stored result `0`,
and clears the point buffer and the stack of the session. -/
theorem finalize_before_done_counterexample :
    Demo.ws.status = status.ST_IDLE ∧
    (nlopt_wrapper_optimize_finalize Demo.ws [0]).map
        (fun p => (p.2, p.1.opt_x, p.1.nlopt_stack)) = some (([5], 0, 0), none, none) ∧
    Demo.ws.opt_x = some [5] ∧ Demo.ws.nlopt_stack = some STACKSIZE := by
  refine ⟨rfl, rfl, rfl, rfl⟩

/-- C8, amended: the code has no usage check. On a session whose worker context was never
armed (start has not been called) `nlopt_wrapper_optimize_callback` has no defined result:
it stores its arguments and switches into the zeroed context. On a session that holds a
point buffer of at least `n` entries, whatever its status, `nlopt_wrapper_optimize_finalize`
does its normal work: it copies the `n` entries out, stores the value, returns the stored
result, and clears the point buffer and the stack, leaving the other fields unchanged. -/
theorem no_usage_check (L : Nlopt O D) (w : wrapper O D) (x : List D)
    (g : Option (List D)) (f : D) (fs : Int) :
    (w.nlopt_ctx = ucontext.zeroed → nlopt_wrapper_optimize_callback L w x g f fs = none) ∧
    (∀ src, w.opt_x = some src → 0 ≤ w.n → w.n.toNat ≤ src.length →
      w.n.toNat ≤ x.length →
      nlopt_wrapper_optimize_finalize w x =
        some ({ w with opt_x := none, nlopt_stack := none },
              src.take w.n.toNat ++ x.drop w.n.toNat, w.final_f, w.result)) := by
  constructor
  · intro hctx
    have h2 : ({ w with eval_f := f, eval_x := some x, eval_grad := g, force_stop := fs } :
        wrapper O D).nlopt_ctx = ucontext.zeroed := hctx
    have hrw : resume_worker L
        { w with eval_f := f, eval_x := some x, eval_grad := g, force_stop := fs } = none := by
      unfold resume_worker
      rw [h2]
      split <;> rfl
    simp only [nlopt_wrapper_optimize_callback, hrw]
  · intro src hsrc hn h1 h2
    have hneg : ¬ w.n < 0 := by omega
    simp [nlopt_wrapper_optimize_finalize, hsrc, memcpy, h1, h2, hneg]

/-- Witness of C8, amended: resume on the never-started `Demo.w0`, finalize on the started
but unfinished `Demo.ws`. -/
theorem no_usage_check_witness :
    nlopt_wrapper_optimize_callback Demo.lib Demo.w0 [0] (some [7]) 10 0 = none ∧
    nlopt_wrapper_optimize_finalize Demo.ws [0] =
      some ({ Demo.ws with opt_x := none, nlopt_stack := none },
            List.take Demo.ws.n.toNat [5] ++ List.drop Demo.ws.n.toNat [0],
            Demo.ws.final_f, Demo.ws.result) :=
  ⟨(no_usage_check Demo.lib Demo.w0 [0] (some [7]) 10 0).1 rfl,
   (no_usage_check Demo.lib Demo.ws [0] (some [7]) 10 0).2 [5] rfl (by decide) (by decide)
    (by decide)⟩

/-- C9, counterexample: on the fresh session `Demo.w0` a constraint with id `1` is accepted
(as an equality and as an inequality constraint): the registry changes, and two registered
functions then carry id `1`. -/
theorem constraint_id_one_accepted :
    registered Demo.w0 = [{ id := 1 }] ∧
    registered (nlopt_wrapper_add_constraint Demo.lib Demo.w0 1 0 1) =
      [{ id := 1 }, { id := 1 }] ∧
    registered (nlopt_wrapper_add_constraint Demo.lib Demo.w0 1 0 0) =
      [{ id := 1 }, { id := 1 }] := by
  refine ⟨rfl, rfl, rfl⟩

/-- C9, amended: for every session, every tolerance and either constraint kind,
`nlopt_wrapper_add_constraint` with id `1` (as with any id) is accepted: the registry gains
an entry with that id right behind the objective entry, which keeps its place and its id,
and the new entry is passed to the library with the tolerance. -/
theorem add_constraint_registers_any_id (L : Nlopt O D) (w : wrapper O D) (id : Int)
    (tolerance : D) (equality : Int) :
    registered (nlopt_wrapper_add_constraint L w id tolerance equality) =
      w.f :: { id := id } :: w.f_next ∧
    (nlopt_wrapper_add_constraint L w id tolerance equality).f = w.f ∧
    (nlopt_wrapper_add_constraint L w id tolerance equality).opt =
      (if equality ≠ 0 then L.nlopt_add_equality_constraint w.opt { id := id } tolerance
       else L.nlopt_add_inequality_constraint w.opt { id := id } tolerance) :=
  ⟨rfl, rfl, rfl⟩

/-- C10, counterexample: the `Demo` session (dimension `1`) is driven to `ST_DONE` and
finalized once; a second `nlopt_wrapper_optimize_finalize` on it has no defined result (it
copies one double out of the cleared point buffer), so it reports no usage error. -/
theorem second_finalize_counterexample :
    drive Demo.lib Demo.host 2 0 Demo.ws = some (Demo.finished,
      [{ status := status.ST_GRAD, function_id := 1, x := [5], answer := none },
       { status := status.ST_DONE, function_id := 1, x := [0],
         answer := some { value := 11, grad := some [7], force_stopped := false } }]) ∧
    nlopt_wrapper_optimize_finalize Demo.finished [0] = some (Demo.finalized, [5], 11, 1) ∧
    nlopt_wrapper_optimize_finalize Demo.finalized [0] = none := by
  refine ⟨rfl, rfl, rfl⟩

/-- C10, amended: for every session that reached `ST_DONE`, the first
`nlopt_wrapper_optimize_finalize` releases the stack and the working point buffer (both
fields are cleared). A later call on the same session is not rejected, the code has no
usage check: it finds both pointers cleared, so it has no stack to release; in dimension
`n > 0` it has no defined result, whatever output buffer it is given (it reads through the
cleared point buffer); in dimension `0` it returns normally once more, with the stored
value and the stored result, and leaves the output point and the session as they are. -/
theorem finalize_clears_then_unchecked (w : wrapper O D) (x src : List D)
    (hdone : w.status = status.ST_DONE) (hsrc : w.opt_x = some src) (hn : 0 ≤ w.n)
    (h1 : w.n.toNat ≤ src.length) (h2 : w.n.toNat ≤ x.length) :
    ∃ w' out, nlopt_wrapper_optimize_finalize w x = some (w', out) ∧
      w'.nlopt_stack = none ∧ w'.opt_x = none ∧ w'.status = status.ST_DONE ∧
      (0 < w.n → ∀ x2, nlopt_wrapper_optimize_finalize w' x2 = none) ∧
      (w.n = 0 → ∀ x2, nlopt_wrapper_optimize_finalize w' x2 =
        some (w', x2, w.final_f, w.result)) := by
  have hneg : ¬ w.n < 0 := by omega
  refine ⟨{ w with opt_x := none, nlopt_stack := none },
    (src.take w.n.toNat ++ x.drop w.n.toNat, w.final_f, w.result), ?_, rfl, rfl, hdone,
    ?_, ?_⟩
  · simp [nlopt_wrapper_optimize_finalize, hsrc, memcpy, h1, h2, hneg]
  · intro hpos x2
    have hne : ¬ w.n = 0 := by omega
    simp [nlopt_wrapper_optimize_finalize, hneg, hne]
  · intro hz x2
    simp [nlopt_wrapper_optimize_finalize, hz]

/-- Witness of C10, amended: the finished `Demo` session, of dimension `1`, and the
finished session of dimension `0` on `lib0`. -/
theorem finalize_clears_then_unchecked_witness :
    (Demo.finished.status = status.ST_DONE ∧
      ∃ w' out, nlopt_wrapper_optimize_finalize Demo.finished [0] = some (w', out) ∧
        w'.nlopt_stack = none ∧ w'.opt_x = none ∧ w'.status = status.ST_DONE ∧
        (0 < Demo.finished.n → ∀ x2, nlopt_wrapper_optimize_finalize w' x2 = none) ∧
        (Demo.finished.n = 0 → ∀ x2, nlopt_wrapper_optimize_finalize w' x2 =
          some (w', x2, Demo.finished.final_f, Demo.finished.result))) ∧
    (Demo.finished0.n = 0 ∧
      ∃ w' out, nlopt_wrapper_optimize_finalize Demo.finished0 [] = some (w', out) ∧
        w'.nlopt_stack = none ∧ w'.opt_x = none ∧ w'.status = status.ST_DONE ∧
        (0 < Demo.finished0.n → ∀ x2, nlopt_wrapper_optimize_finalize w' x2 = none) ∧
        (Demo.finished0.n = 0 → ∀ x2, nlopt_wrapper_optimize_finalize w' x2 =
          some (w', x2, Demo.finished0.final_f, Demo.finished0.result))) :=
  ⟨⟨rfl, finalize_clears_then_unchecked Demo.finished [0] [5] rfl rfl (by decide)
      (by decide) (by decide)⟩,
   ⟨rfl, finalize_clears_then_unchecked Demo.finished0 [] [] rfl rfl (by decide)
      (by decide) (by decide)⟩⟩

end Claims

end NloptWrapper
